import Mathlib

/-!
Verification development for the `go-api` dispatch and session layer.

The Go sources (src/http.go, src/session.go, src/response.go, src/chrono.go)
are shallowly embedded below.  Go maps (`map[string]...`) are modelled as
association lists with last-write-wins insertion; only lookup-extensional
facts are proved, so the unspecified iteration order of Go maps never
matters.  `time.Time` is modelled by its wall clock (seconds and
nanoseconds) plus an optional monotonic reading; RFC3339Nano serialization
keeps exactly the wall clock, which the model captures by `marshalTime`.
I/O (file handles, the HTTP transport, logging) is abstracted: functions
receive the decoded content of a file or the result of a handler call as an
argument and return the value that the Go code would write.
-/

section GoMap

/-- Lookup in an association list, modelling Go map indexing `m[k]`. -/
def gfind {κ α : Type} [DecidableEq κ] : List (κ × α) → κ → Option α
  | [], _ => none
  | p :: r, k => if p.1 = k then some p.2 else gfind r k

/-- Insertion modelling Go map assignment `m[k] = v`: any previous binding of
`k` is dropped and the new binding added.  Extensionally equal to the Go map
after the assignment. -/
def gInsert {κ α : Type} [DecidableEq κ] (m : List (κ × α)) (k : κ) (v : α) :
    List (κ × α) :=
  match m with
  | [] => [(k, v)]
  | p :: r => if p.1 = k then gInsert r k v else p :: gInsert r k v

/-- Deletion modelling Go `delete(m, k)`. -/
def removeKey {κ α : Type} [DecidableEq κ] (m : List (κ × α)) (k : κ) :
    List (κ × α) :=
  match m with
  | [] => []
  | p :: r => if p.1 = k then removeKey r k else p :: removeKey r k

/-- The keys of an association list. -/
def keysOf {κ α : Type} (m : List (κ × α)) : List κ := m.map Prod.fst

/-- First `some` in a list of options (used to state the static-file
fallback order). -/
def listFirstSome {α : Type} : List (Option α) → Option α
  | [] => none
  | o :: r =>
    match o with
    | some a => some a
    | none => listFirstSome r

end GoMap

section DataModel

/-- JSON-like values, the shape of `interface{}` data that flows through
session data and response envelopes. -/
inductive JsonV : Type where
  | null : JsonV
  | bool : Bool → JsonV
  | num : Int → JsonV
  | str : String → JsonV
  | arr : List JsonV → JsonV
  | obj : List (String × JsonV) → JsonV

/-- Go `time.Time`: wall-clock seconds and nanoseconds plus an optional
monotonic reading.  RFC3339Nano text keeps exactly the wall clock. -/
structure GoTime where
  wallSec : Int
  wallNsec : Nat
  mono : Option Int
deriving DecidableEq

/-- The serialized form of a `time.Time` under RFC3339 with nanosecond
precision: the wall clock survives, the monotonic reading does not. -/
def marshalTime (t : GoTime) : Int × Nat := (t.wallSec, t.wallNsec)

/-- Parsing an RFC3339Nano timestamp back: wall clock restored, no
monotonic reading. -/
def parseTimeRFC3339 (p : Int × Nat) : GoTime :=
  { wallSec := p.1, wallNsec := p.2, mono := none }

/-- The `Session` struct of src/session.go (the per-session lock is a
concurrency artifact with no data content and is not represented). -/
structure SessionV where
  id : String
  userName : String
  lastOp : GoTime
  data : List (String × JsonV)

/-- One value of the checkpoint document built by `SessionDump`
(src/session.go): fields `id`, `data`, `lastOp` (serialized timestamp),
`userName`. -/
structure DumpEntry where
  id : String
  data : List (String × JsonV)
  lastOp : Int × Nat
  userName : String

/-- The entry `SessionDump` builds for one session. -/
def mkDumpEntry (sx : SessionV) : DumpEntry :=
  { id := sx.id, data := sx.data, lastOp := marshalTime sx.lastOp,
    userName := sx.userName }

/-- The session `RestoreSessions` reconstructs from one decoded entry
(src/session.go lines 145-158); the fresh per-entry lock is not data. -/
def restoreEntry (e : DumpEntry) : SessionV :=
  { id := e.id, userName := e.userName, lastOp := parseTimeRFC3339 e.lastOp,
    data := e.data }

end DataModel

section SessionStore

/-- `newSession` of src/session.go on the store `activeSessions`.  `cand` is
the argument `id`; when it is empty the Go code loops on `RandString(24)`
until a non-colliding id is produced, modelled by the parameter `fresh`
(the entropy-failure early return is not taken on any path the claims
concern).  Returns the session and the updated store. -/
def newSession (cand fresh : String) (now : GoTime)
    (st : List (String × SessionV)) : SessionV × List (String × SessionV) :=
  let idR := if cand = "" then fresh else cand
  match gfind st idR with
  | some s0 =>
    let s1 : SessionV := { s0 with lastOp := now }
    (s1, gInsert st idR s1)
  | none =>
    let s1 : SessionV := { id := idR, userName := "", lastOp := now, data := [] }
    (s1, gInsert st idR s1)

/-- `startSession` of src/http.go: no cookie means `newSession("")` and
`b = true`; a cookie means `newSession(c.Value)` and `b = false`.  The
cookie is set on the response whenever the session is non-nil, which holds
on every successful path. -/
def startSession (cookie : Option String) (fresh : String) (now : GoTime)
    (st : List (String × SessionV)) :
    SessionV × Bool × List (String × SessionV) :=
  match cookie with
  | none =>
    let r := newSession "" fresh now st
    (r.1, true, r.2)
  | some v =>
    let r := newSession v fresh now st
    (r.1, false, r.2)

/-- `SessionDump` of src/session.go: the document written to the checkpoint
file, keyed by each session's own `id` field. -/
def SessionDump (st : List (String × SessionV)) : List (String × DumpEntry) :=
  st.map (fun p => (p.2.id, mkDumpEntry p.2))

/-- What reading and decoding the checkpoint file can yield: the open can
fail, the whole-document decode can fail (note the Go code discards the
`Decode` error), or a document is decoded. -/
inductive FileRead : Type where
  | openErr : FileRead
  | decodeErr : FileRead
  | ok : List (String × DumpEntry) → FileRead

/-- The insertion loop of `RestoreSessions`: each decoded entry is inserted
under its own `id` field (the document key is ignored by the loop). -/
def restoreFold : List (String × DumpEntry) → List (String × SessionV) →
    List (String × SessionV)
  | [], st => st
  | p :: r, st => restoreFold r (gInsert st p.2.id (restoreEntry p.2))

/-- `RestoreSessions` of src/session.go.  Returns `(ok?, store)` where
`ok? = true` models a nil error returned to the caller.  An empty path
returns nil at once; an open failure is returned; a decode failure is
discarded (`dec.Decode(&m)` ignores its error), leaving `m` empty, so the
function still returns nil. -/
def RestoreSessions (path : String) (fr : FileRead)
    (st : List (String × SessionV)) : Bool × List (String × SessionV) :=
  if path = "" then (true, st)
  else
    match fr with
    | FileRead.openErr => (false, st)
    | FileRead.decodeErr => (true, st)
    | FileRead.ok doc => (true, restoreFold doc st)

/-- Lookup of a document entry by its `id` field (the field `RestoreSessions`
keys its inserts by). -/
def findByEntryId : List (String × DumpEntry) → String → Option DumpEntry
  | [], _ => none
  | p :: r, k => if p.2.id = k then some p.2 else findByEntryId r k

/-- Store well-formedness: no two entries share a key and every entry is
keyed by its own session id. -/
def WfStore (st : List (String × SessionV)) : Prop :=
  (keysOf st).Nodup ∧ ∀ p ∈ st, p.2.id = p.1

/-- Equality of sessions up to the serialized timestamp precision: `id`,
`user` and `data` identical, `lastOp` equal as RFC3339Nano text. -/
def sessionRTEq (a b : SessionV) : Prop :=
  a.id = b.id ∧ a.userName = b.userName ∧ a.data = b.data ∧
    marshalTime a.lastOp = marshalTime b.lastOp

/-- Lift `sessionRTEq` to optional lookup results. -/
def optSessionRTEq : Option SessionV → Option SessionV → Prop
  | none, none => True
  | some a, some b => sessionRTEq a b
  | _, _ => False

/-- The operations of src/session.go that touch the store `activeSessions`:
resolution-or-create (`newSession`), per-session `Set` (store-visible via the
shared pointer), `Delete`, `RestoreSessions`, and `SessionDump` (which reads
but does not modify). -/
inductive StoreOp : Type where
  | create : String → String → GoTime → StoreOp
  | sessSet : String → String → JsonV → GoTime → StoreOp
  | del : String → StoreOp
  | restore : String → FileRead → StoreOp
  | dump : StoreOp

/-- Effect of each operation on the store. -/
def applyOp (op : StoreOp) (st : List (String × SessionV)) :
    List (String × SessionV) :=
  match op with
  | StoreOp.create cand fresh now => (newSession cand fresh now st).2
  | StoreOp.sessSet id key v now =>
    match gfind st id with
    | some s =>
      gInsert st id { s with data := gInsert s.data key v, lastOp := now }
    | none => st
  | StoreOp.del id => removeKey st id
  | StoreOp.restore path fr => (RestoreSessions path fr st).2
  | StoreOp.dump => st

/-- Whether an operation is the resolution-or-create operation. -/
def isCreateOp : StoreOp → Bool
  | StoreOp.create _ _ _ => true
  | _ => false

/-- Whether an operation is the startup restore. -/
def isRestoreOp : StoreOp → Bool
  | StoreOp.restore _ _ => true
  | _ => false

/-- Whether an operation is an explicit deletion. -/
def isDeleteOp : StoreOp → Bool
  | StoreOp.del _ => true
  | _ => false

/-- Store states reachable from the initial empty `activeSessions` map by
the operations of the session store. -/
inductive Reachable : List (String × SessionV) → Prop where
  | init : Reachable []
  | step : ∀ st op, Reachable st → Reachable (applyOp op st)

end SessionStore

section Responses

/-- The mutable state of a `JsonResponse` (src/response.go): status,
headers, and the JSON body map. -/
structure JsonResponseV where
  status : Nat
  headers : List (String × String)
  data : List (String × JsonV)

/-- The polymorphic `Response` values of src/response.go: JSON envelope,
binary blob, or redirect. -/
inductive ResponseV : Type where
  | json : JsonResponseV → ResponseV
  | blob : Nat → List (String × String) → String → String → ResponseV
  | redirect : Nat → String → ResponseV

/-- A handler result slot: either already a `Response` or a raw value. -/
inductive GoValue : Type where
  | raw : JsonV → GoValue
  | resp : ResponseV → GoValue

/-- `InitJsonResponse` of src/response.go: status 200, `session` true,
`errors` empty, JSON content type. -/
def InitJsonResponse : JsonResponseV :=
  { status := 200
  , headers := gInsert [] "Content-Type" "application/json"
  , data := gInsert (gInsert [] "session" (JsonV.bool true)) "errors" (JsonV.arr []) }

/-- `JsonResponse.Set` on an already initialized response (`ensure` is a
no-op there). -/
def JsonResponseV.set (jr : JsonResponseV) (k : String) (v : JsonV) :
    JsonResponseV :=
  { jr with data := gInsert jr.data k v }

/-- The Go type assertion `respi.(Response)`. -/
def asResponse : GoValue → Option ResponseV
  | GoValue.resp r => some r
  | GoValue.raw _ => none

/-- The raw payload of a non-Response handler result. -/
def rawJson : GoValue → JsonV
  | GoValue.raw v => v
  | GoValue.resp _ => JsonV.null

/-- The tail of `handleRequest` (src/http.go lines 92-103).  The outer
variable `resp` holds the result of the type assertion and is nil when the
assertion fails; the statement `resp := InitJsonResponse()` inside the if
block declares a new, shadowed variable, so the envelope built there never
reaches the outer `resp`.  `resp.Write(w)` on the nil interface panics, the
deferred recover logs it, and nothing is written: the result is `none`. -/
def dispatchWrite (respi : GoValue) : Option ResponseV :=
  match asResponse respi with
  | some r => some r
  | none =>
    let _shadowed := InitJsonResponse.set "data" (rawJson respi)
    none

end Responses

section Dispatcher

/-- A resolved handler as seen by the dispatcher: its parameter count
(`m.NumIn()`) and the outcome of calling it (result slot or error). -/
structure Method where
  numIn : Nat
  result : Except String GoValue

/-- What `handleRequest` (src/http.go) does with a request, observable at
the response writer. -/
inductive DispatchOutcome : Type where
  | notFound : DispatchOutcome
  | serverError : DispatchOutcome
  | redirect : String → Nat → Bool → DispatchOutcome
  | handlerRun : Nat → Option ResponseV → Bool → DispatchOutcome

/-- `handleRequest` of src/http.go.  `sessionRes` is the outcome of
`startSession` (`none` models a store failure or nil session, giving 500);
on success it carries the session and the new-session flag.  The `Bool` in
`redirect` and `handlerRun` records that the session cookie was set on this
same response (it always is once `startSession` succeeds).  Arity 1 and 2
invoke the handler; any other arity is logged and answered with 500. -/
def handleRequest (m : Option Method) (request : String) (hasAuth : Bool)
    (sessionRes : Option (SessionV × Bool)) : DispatchOutcome :=
  match m with
  | none => DispatchOutcome.notFound
  | some meth =>
    match sessionRes with
    | none => DispatchOutcome.serverError
    | some (s, isNew) =>
      if isNew = true ∧ request ≠ "Login" then
        DispatchOutcome.redirect "/Login" 307 true
      else if hasAuth = true ∧ s.userName = "" then
        DispatchOutcome.redirect "/Login" 307 true
      else if meth.numIn = 1 ∨ meth.numIn = 2 then
        match meth.result with
        | Except.error _ => DispatchOutcome.serverError
        | Except.ok v => DispatchOutcome.handlerRun meth.numIn (dispatchWrite v) true
      else DispatchOutcome.serverError

end Dispatcher

section Resolver

/-- Modelled from the spec: the URI Path Stack.  The source file defining
`InitURI`, `Pop`, `StackCount` and `ResetStack` is not under src; spec
section 4.1 says build splits the raw URI on path separators, discards
empty segments and preserves order, `Pop` returns the next segment or the
empty string when exhausted, and `ResetStack` restores the decomposition
produced by build. -/
structure URIModel where
  path : String
  orig : List String
  stack : List String

/-- Modelled from the spec: segment decomposition of a raw URI (split on
the path separator, discard empty segments, preserve order). -/
def buildSegments (raw : String) : List String :=
  (raw.splitOn "/").filter (fun s => s != "")

/-- Modelled from the spec: `InitURI` builds the stack from the raw URI. -/
def InitURI (raw : String) : URIModel :=
  { path := raw, orig := buildSegments raw, stack := buildSegments raw }

/-- Modelled from the spec: `ResetStack` restores the original
decomposition. -/
def ResetStack (u : URIModel) : URIModel := { u with stack := u.orig }

/-- Modelled from the spec: `Pop` removes and returns the next segment, or
the empty string when the stack is exhausted. -/
def URIModel.Pop (u : URIModel) : String × URIModel :=
  match u.stack with
  | [] => ("", u)
  | a :: r => (a, { u with stack := r })

/-- A controller node (spec section 3, virtual): named auth-gated
sub-controllers, named plain sub-controllers, and named terminal handlers.
The reflective lookups `utility.GetProperty(c, name, "", "controller",
"auth")`, `utility.GetProperty(c, name, "", "controller")` and
`utility.GetMethod(c, name, "Request")` of the external go-utility module
become lookups in the three lists. -/
inductive Controller : Type where
  | mk : List (String × Controller) → List (String × Controller) →
      List (String × Method) → Controller

/-- The auth-gated sub-controllers of a node. -/
def Controller.auth : Controller → List (String × Controller)
  | Controller.mk a _ _ => a

/-- The plain sub-controllers of a node. -/
def Controller.plain : Controller → List (String × Controller)
  | Controller.mk _ p _ => p

/-- The terminal handlers of a node. -/
def Controller.handlers : Controller → List (String × Method)
  | Controller.mk _ _ h => h

/-- The resolution loop of `getHandler` (src/http.go lines 169-179):
while more than one segment remains and a controller is present, pop a
segment, try the auth-gated sub-controller first (setting `hasAuth`), else
descend into the plain sub-controller (possibly to nil). -/
def resolveLoop : Option Controller → List String → Bool →
    Option Controller × List String × Bool
  | some ctrl, name :: r :: rs, hasAuth =>
    (match gfind ctrl.auth name with
     | some ca => resolveLoop (some ca) (r :: rs) true
     | none => resolveLoop (gfind ctrl.plain name) (r :: rs) hasAuth)
  | c, stack, hasAuth => (c, stack, hasAuth)

/-- The handler-name step of `getHandler` (src/http.go lines 181-188): after
the loop, pop the final segment as the handler name and look it up on the
final controller; an exhausted stack or absent controller resolves
nothing. -/
def getHandlerResolve (root : Controller) (u : URIModel) :
    Option Method × String × Bool :=
  match resolveLoop (some root) u.stack false with
  | (some ctrl, stack2, hasAuth) =>
    (match stack2 with
     | request :: _ =>
       if request = "" then (none, request, hasAuth)
       else (gfind ctrl.handlers request, request, hasAuth)
     | [] => (none, "", hasAuth))
  | (none, _, hasAuth) => (none, "", hasAuth)

end Resolver

section StaticFiles

/-- A filesystem node: regular file or directory. -/
inductive FNode : Type where
  | file : FNode
  | dir : FNode
deriving DecidableEq

/-- The filesystem as seen through `os.Stat`: a finite map from paths
(segment lists) to nodes; absent paths make `Stat` fail. -/
abbrev FSModel := List (List String × FNode)

/-- The nil-stack tail of `handleFile` (src/http.go): stat the path; a file
is served, a directory descends into its `index.html` (a further directory
descends again).  `fuel` bounds the directory descent; a finite filesystem
has no infinite chain, so any fuel at least the nesting depth is exact. -/
def serveNoStack (fs : FSModel) : Nat → List String → Option (List String)
  | 0, _ => none
  | Nat.succ fuel, p =>
    match gfind fs p with
    | none => none
    | some FNode.file => some p
    | some FNode.dir => serveNoStack fs fuel (p ++ ["index.html"])

/-- The stat-and-serve block of `handleFile` (src/http.go lines 131-141):
serve the path if it is a file, serve its `index.html` if it is a
directory, fail if it does not exist. -/
def statServe (fs : FSModel) (fuel : Nat) (filePath : List String) :
    Option (List String) :=
  match gfind fs filePath with
  | none => none
  | some FNode.file => some filePath
  | some FNode.dir => serveNoStack fs fuel (filePath ++ ["index.html"])

/-- `handleFile` of src/http.go: pop a segment and recurse depth-first on
the extended path; only if that fails (or the stack is exhausted) stat and
serve the current path.  Returns the path served, or `none` for the
`os.ErrNotExist` failure. -/
def handleFile (fs : FSModel) (fuel : Nat) (filePath : List String) :
    List String → Option (List String)
  | [] => statServe fs fuel filePath
  | part :: rest =>
    match handleFile fs fuel (filePath ++ [part]) rest with
    | some served => some served
    | none => statServe fs fuel filePath

/-- The candidate paths of the static fallback, deepest first: the full
nested path, then each shorter prefix, down to the root itself. -/
def fallbackCandidates (base : List String) : List String → List (List String)
  | [] => [base]
  | a :: rest => fallbackCandidates (base ++ [a]) rest ++ [base]

/-- Outcome of the static fallback: a file served, or `http.NotFound`. -/
inductive DistOutcome : Type where
  | served : List String → DistOutcome
  | notFound : DistOutcome

/-- `handleDist` of src/http.go: reset the stack to the original
decomposition, run `handleFile` from the static root, and answer 404 when
nothing is found. -/
def handleDist (fs : FSModel) (fuel : Nat) (dist : List String)
    (u : URIModel) : DistOutcome :=
  match handleFile fs fuel dist (ResetStack u).stack with
  | some p => DistOutcome.served p
  | none => DistOutcome.notFound

end StaticFiles

section ExampleInputs

/-- A sample well-formed one-session store for the checkpoint round trip. -/
def stC2 : List (String × SessionV) :=
  [("a", { id := "a", userName := "u",
           lastOp := { wallSec := 3, wallNsec := 14, mono := some 7 },
           data := [("k", JsonV.str "v")] })]

/-- A sample auth-gated sub-controller. -/
def caC5 : Controller := Controller.mk [] [] [("PingRequest", ⟨1, Except.error ""⟩)]

/-- A sample plain sub-controller sharing the name of the auth-gated one. -/
def cpC5 : Controller := Controller.mk [] [] []

/-- A root controller where the name `Account` has both an auth-gated and a
plain sub-controller. -/
def ctrlC5 : Controller := Controller.mk [("Account", caC5)] [("Account", cpC5)] []

/-- A sample filesystem for the static fallback: the root and an `assets`
directory holding an `index.html`. -/
def fsC10 : FSModel :=
  [(["dist"], FNode.dir), (["dist", "assets"], FNode.dir),
   (["dist", "assets", "index.html"], FNode.file)]

/-- A sample URI for the static fallback witness. -/
def uC10 : URIModel := InitURI "/assets/img/logo.png"

/-- A sample timestamp. -/
def tZero : GoTime := { wallSec := 0, wallNsec := 0, mono := none }

/-- A sample session with empty user, for the dispatcher witnesses. -/
def sC6 : SessionV := { id := "i", userName := "", lastOp := tZero, data := [] }

/-- A sample zero-parameter handler, for the arity witness. -/
def methC6 : Method := { numIn := 0, result := Except.ok (GoValue.raw JsonV.null) }

/-- A sample pre-existing session, for the resolve-existing witness. -/
def s0C9 : SessionV :=
  { id := "a", userName := "u",
    lastOp := { wallSec := 9, wallNsec := 1, mono := none }, data := [] }

/-- A one-session store holding `s0C9`. -/
def stC9 : List (String × SessionV) := [("a", s0C9)]

end ExampleInputs

section MapLemmas

theorem gfind_gInsert_self {κ α : Type} [DecidableEq κ] (m : List (κ × α))
    (k : κ) (v : α) : gfind (gInsert m k v) k = some v := by
  induction m with
  | nil => simp [gInsert, gfind]
  | cons p r ih =>
    by_cases hp : p.1 = k
    · simp [gInsert, hp, ih]
    · simp [gInsert, hp, gfind, ih]

theorem gfind_gInsert_ne {κ α : Type} [DecidableEq κ] (m : List (κ × α))
    (k k2 : κ) (v : α) (h : k ≠ k2) : gfind (gInsert m k v) k2 = gfind m k2 := by
  induction m with
  | nil => simp [gInsert, gfind, h]
  | cons p r ih =>
    by_cases hp : p.1 = k
    · have hpk : ¬ p.1 = k2 := by rw [hp]; exact h
      simp [gInsert, hp, gfind, hpk, ih, h]
    · by_cases hq : p.1 = k2
      · simp [gInsert, hp, gfind, hq, h.symm]
      · simp [gInsert, hp, gfind, hq, ih]

theorem gfind_some_mem {κ α : Type} [DecidableEq κ] (m : List (κ × α))
    (k : κ) (v : α) (h : gfind m k = some v) : (k, v) ∈ m := by
  induction m with
  | nil => simp [gfind] at h
  | cons p r ih =>
    cases p with
    | mk a b =>
      by_cases hp : a = k
      · simp [gfind, hp] at h
        subst hp
        subst h
        exact List.mem_cons_self _ _
      · simp [gfind, hp] at h
        exact List.mem_cons_of_mem _ (ih h)

theorem gfind_some_key_mem {κ α : Type} [DecidableEq κ] (m : List (κ × α))
    (k : κ) (v : α) (h : gfind m k = some v) : k ∈ keysOf m :=
  List.mem_map.mpr ⟨(k, v), gfind_some_mem m k v h, rfl⟩

theorem mem_gInsert_elim {κ α : Type} [DecidableEq κ] (m : List (κ × α))
    (k : κ) (v : α) (q : κ × α) (h : q ∈ gInsert m k v) : q ∈ m ∨ q = (k, v) := by
  induction m with
  | nil =>
    simp [gInsert] at h
    right
    exact h
  | cons p r ih =>
    by_cases hp : p.1 = k
    · simp only [gInsert, if_pos hp] at h
      rcases ih h with hm | he
      · exact Or.inl (List.mem_cons_of_mem _ hm)
      · exact Or.inr he
    · simp only [gInsert, if_neg hp, List.mem_cons] at h
      rcases h with he | hm
      · exact Or.inl (by simp [he])
      · rcases ih hm with h1 | h2
        · exact Or.inl (List.mem_cons_of_mem _ h1)
        · exact Or.inr h2

theorem mem_keysOf_gInsert {κ α : Type} [DecidableEq κ] (m : List (κ × α))
    (k x : κ) (v : α) (h : x ∈ keysOf (gInsert m k v)) : x ∈ keysOf m ∨ x = k := by
  rcases List.mem_map.mp h with ⟨q, hq, hx⟩
  rcases mem_gInsert_elim m k v q hq with hm | he
  · exact Or.inl (List.mem_map.mpr ⟨q, hm, hx⟩)
  · right
    rw [← hx, he]

theorem self_mem_keysOf_gInsert {κ α : Type} [DecidableEq κ] (m : List (κ × α))
    (k : κ) (v : α) : k ∈ keysOf (gInsert m k v) := by
  induction m with
  | nil => simp [gInsert, keysOf]
  | cons p r ih =>
    by_cases hp : p.1 = k
    · simp only [gInsert, if_pos hp]
      exact ih
    · simp only [gInsert, if_neg hp, keysOf, List.map, List.mem_cons]
      exact Or.inr ih

theorem keysOf_gInsert_sub {κ α : Type} [DecidableEq κ] (m : List (κ × α))
    (k : κ) (v : α) : ∀ x, x ∈ keysOf m → x ∈ keysOf (gInsert m k v) := by
  induction m with
  | nil =>
    intro x hx
    simp [keysOf] at hx
  | cons p r ih =>
    intro x hx
    simp only [keysOf, List.map, List.mem_cons] at hx
    by_cases hp : p.1 = k
    · simp only [gInsert, if_pos hp]
      rcases hx with h1 | h2
      · rw [h1, hp]
        exact self_mem_keysOf_gInsert r k v
      · exact ih x h2
    · simp only [gInsert, if_neg hp, keysOf, List.map, List.mem_cons]
      rcases hx with h1 | h2
      · exact Or.inl h1
      · exact Or.inr (ih x h2)

theorem nodup_keysOf_gInsert {κ α : Type} [DecidableEq κ] (m : List (κ × α))
    (k : κ) (v : α) (h : (keysOf m).Nodup) : (keysOf (gInsert m k v)).Nodup := by
  induction m with
  | nil => simp [gInsert, keysOf]
  | cons p r ih =>
    simp only [keysOf, List.map, List.nodup_cons] at h
    by_cases hp : p.1 = k
    · simp only [gInsert, if_pos hp]
      exact ih h.2
    · simp only [gInsert, if_neg hp, keysOf, List.map, List.nodup_cons]
      refine ⟨?_, ih h.2⟩
      intro hmem
      rcases mem_keysOf_gInsert r k p.1 v hmem with h1 | h2
      · exact h.1 h1
      · exact hp h2

theorem mem_removeKey {κ α : Type} [DecidableEq κ] (m : List (κ × α))
    (k : κ) (q : κ × α) (h : q ∈ removeKey m k) : q ∈ m := by
  induction m with
  | nil => exact h
  | cons p r ih =>
    by_cases hp : p.1 = k
    · simp only [removeKey, if_pos hp] at h
      exact List.mem_cons_of_mem _ (ih h)
    · simp only [removeKey, if_neg hp, List.mem_cons] at h
      rcases h with he | hm
      · exact by simp [he]
      · exact List.mem_cons_of_mem _ (ih hm)

theorem mem_keysOf_removeKey {κ α : Type} [DecidableEq κ] (m : List (κ × α))
    (k x : κ) (h : x ∈ keysOf (removeKey m k)) : x ∈ keysOf m := by
  rcases List.mem_map.mp h with ⟨q, hq, hx⟩
  exact List.mem_map.mpr ⟨q, mem_removeKey m k q hq, hx⟩

theorem nodup_keysOf_removeKey {κ α : Type} [DecidableEq κ] (m : List (κ × α))
    (k : κ) (h : (keysOf m).Nodup) : (keysOf (removeKey m k)).Nodup := by
  induction m with
  | nil => exact h
  | cons p r ih =>
    simp only [keysOf, List.map, List.nodup_cons] at h
    by_cases hp : p.1 = k
    · simp only [removeKey, if_pos hp]
      exact ih h.2
    · simp only [removeKey, if_neg hp, keysOf, List.map, List.nodup_cons]
      refine ⟨?_, ih h.2⟩
      intro hmem
      exact h.1 (mem_keysOf_removeKey r k p.1 hmem)

end MapLemmas

section StoreLemmas

theorem wf_gInsert (st : List (String × SessionV)) (k : String) (s : SessionV)
    (hwf : WfStore st) (hid : s.id = k) : WfStore (gInsert st k s) := by
  refine ⟨nodup_keysOf_gInsert st k s hwf.1, ?_⟩
  intro p hp
  rcases mem_gInsert_elim st k s p hp with hm | he
  · exact hwf.2 p hm
  · rw [he]
    exact hid

theorem wf_newSession (cand fresh : String) (now : GoTime)
    (st : List (String × SessionV)) (hwf : WfStore st) :
    WfStore (newSession cand fresh now st).2 := by
  unfold newSession
  cases hg : gfind st (if cand = "" then fresh else cand) with
  | some s0 =>
    simp only [hg]
    refine wf_gInsert st _ _ hwf ?_
    have hm := gfind_some_mem st _ s0 hg
    exact hwf.2 _ hm
  | none =>
    simp only [hg]
    exact wf_gInsert st _ _ hwf rfl

theorem wf_restoreFold (doc : List (String × DumpEntry))
    (st : List (String × SessionV)) (hwf : WfStore st) :
    WfStore (restoreFold doc st) := by
  induction doc generalizing st with
  | nil => exact hwf
  | cons p r ih => exact ih _ (wf_gInsert st _ _ hwf rfl)

theorem wf_applyOp (op : StoreOp) (st : List (String × SessionV))
    (hwf : WfStore st) : WfStore (applyOp op st) := by
  cases op with
  | create cand fresh now => exact wf_newSession cand fresh now st hwf
  | sessSet id key v now =>
    simp only [applyOp]
    cases hg : gfind st id with
    | none => exact hwf
    | some s =>
      refine wf_gInsert st _ _ hwf ?_
      have hm := gfind_some_mem st id s hg
      exact hwf.2 _ hm
  | del id =>
    exact ⟨nodup_keysOf_removeKey st id hwf.1,
      fun p hp => hwf.2 p (mem_removeKey st id p hp)⟩
  | restore path fr =>
    simp only [applyOp, RestoreSessions]
    by_cases hp : path = ""
    · simp only [if_pos hp]
      exact hwf
    · simp only [if_neg hp]
      cases fr with
      | openErr => exact hwf
      | decodeErr => exact hwf
      | ok doc => exact wf_restoreFold doc st hwf
  | dump => exact hwf

theorem reachable_wf : ∀ st, Reachable st → WfStore st := by
  intro st h
  induction h with
  | init => exact ⟨List.nodup_nil, fun p hp => absurd hp (List.not_mem_nil p)⟩
  | step st2 op _ ih => exact wf_applyOp op st2 ih

theorem keys_restoreFold_sup (doc : List (String × DumpEntry))
    (st : List (String × SessionV)) :
    ∀ x, x ∈ keysOf st → x ∈ keysOf (restoreFold doc st) := by
  induction doc generalizing st with
  | nil => exact fun x hx => hx
  | cons p r ih =>
    intro x hx
    exact ih _ x (keysOf_gInsert_sub st _ _ x hx)

theorem keys_applyOp_sub (op : StoreOp) (st : List (String × SessionV))
    (x : String) (hc : isCreateOp op = false) (hr : isRestoreOp op = false)
    (hx : x ∈ keysOf (applyOp op st)) : x ∈ keysOf st := by
  cases op with
  | create cand fresh now => exact absurd hc (by simp [isCreateOp])
  | restore path fr => exact absurd hr (by simp [isRestoreOp])
  | dump => exact hx
  | del id => exact mem_keysOf_removeKey st id x hx
  | sessSet id key v now =>
    simp only [applyOp] at hx
    cases hg : gfind st id with
    | none =>
      rw [hg] at hx
      exact hx
    | some s =>
      rw [hg] at hx
      rcases mem_keysOf_gInsert st id x _ hx with h1 | h2
      · exact h1
      · rw [h2]
        exact gfind_some_key_mem st id s hg

theorem keys_applyOp_sup (op : StoreOp) (st : List (String × SessionV))
    (x : String) (hd : isDeleteOp op = false) (hx : x ∈ keysOf st) :
    x ∈ keysOf (applyOp op st) := by
  cases op with
  | del id => exact absurd hd (by simp [isDeleteOp])
  | dump => exact hx
  | create cand fresh now =>
    simp only [applyOp, newSession]
    cases hg : gfind st (if cand = "" then fresh else cand) with
    | some s0 =>
      simp only [hg]
      exact keysOf_gInsert_sub st _ _ x hx
    | none =>
      simp only [hg]
      exact keysOf_gInsert_sub st _ _ x hx
  | sessSet id key v now =>
    simp only [applyOp]
    cases hg : gfind st id with
    | none => exact hx
    | some s => exact keysOf_gInsert_sub st _ _ x hx
  | restore path fr =>
    simp only [applyOp, RestoreSessions]
    by_cases hp : path = ""
    · simp only [if_pos hp]
      exact hx
    · simp only [if_neg hp]
      cases fr with
      | openErr => exact hx
      | decodeErr => exact hx
      | ok doc => exact keys_restoreFold_sup doc st x hx

end StoreLemmas

section CheckpointLemmas

theorem findByEntryId_eq_none (doc : List (String × DumpEntry)) (k : String)
    (h : k ∉ doc.map (fun p => p.2.id)) : findByEntryId doc k = none := by
  induction doc with
  | nil => rfl
  | cons p r ih =>
    simp only [List.map, List.mem_cons, not_or] at h
    simp only [findByEntryId]
    rw [if_neg (fun he => h.1 he.symm)]
    exact ih h.2

theorem restoreFold_gfind (doc : List (String × DumpEntry))
    (acc : List (String × SessionV)) (k : String)
    (hnd : (doc.map (fun p => p.2.id)).Nodup) :
    gfind (restoreFold doc acc) k =
      match findByEntryId doc k with
      | some e => some (restoreEntry e)
      | none => gfind acc k := by
  induction doc generalizing acc with
  | nil => rfl
  | cons p r ih =>
    simp only [List.map, List.nodup_cons] at hnd
    by_cases hk : p.2.id = k
    · have hkn : k ∉ r.map (fun q => q.2.id) := by
        rw [← hk]
        exact hnd.1
      have hnone : findByEntryId r k = none := findByEntryId_eq_none r k hkn
      show gfind (restoreFold r (gInsert acc p.2.id (restoreEntry p.2))) k = _
      rw [ih _ hnd.2, hnone]
      simp only [findByEntryId, if_pos hk]
      rw [hk]
      exact gfind_gInsert_self acc k (restoreEntry p.2)
    · show gfind (restoreFold r (gInsert acc p.2.id (restoreEntry p.2))) k = _
      rw [ih _ hnd.2]
      simp only [findByEntryId, if_neg hk]
      cases findByEntryId r k with
      | some e => rfl
      | none => exact gfind_gInsert_ne acc p.2.id k (restoreEntry p.2) hk

theorem sessionDump_ids (st : List (String × SessionV))
    (hwf : ∀ p ∈ st, p.2.id = p.1) :
    (SessionDump st).map (fun p => p.2.id) = keysOf st := by
  induction st with
  | nil => rfl
  | cons p r ih =>
    have hid : p.2.id = p.1 := hwf p (List.mem_cons_self p r)
    simp only [SessionDump, keysOf, List.map] at ih ⊢
    rw [show (mkDumpEntry p.2).id = p.2.id from rfl, hid]
    rw [ih (fun q hq => hwf q (List.mem_cons_of_mem _ hq))]

theorem findByEntryId_sessionDump (st : List (String × SessionV)) (k : String)
    (hwf : ∀ p ∈ st, p.2.id = p.1) :
    findByEntryId (SessionDump st) k = Option.map mkDumpEntry (gfind st k) := by
  induction st with
  | nil => rfl
  | cons p r ih =>
    have hid : p.2.id = p.1 := hwf p (List.mem_cons_self p r)
    by_cases hk : p.1 = k
    · simp only [SessionDump, List.map, findByEntryId, gfind]
      rw [show (mkDumpEntry p.2).id = p.2.id from rfl, hid]
      rw [if_pos hk, if_pos hk]
      rfl
    · simp only [SessionDump, List.map, findByEntryId, gfind]
      rw [show (mkDumpEntry p.2).id = p.2.id from rfl, hid]
      rw [if_neg hk, if_neg hk]
      exact ih (fun q hq => hwf q (List.mem_cons_of_mem _ hq))

end CheckpointLemmas

section StaticLemmas

theorem listFirstSome_append {α : Type} (l1 l2 : List (Option α)) :
    listFirstSome (l1 ++ l2) =
      match listFirstSome l1 with
      | some a => some a
      | none => listFirstSome l2 := by
  induction l1 with
  | nil => rfl
  | cons o r ih =>
    cases o with
    | some a => rfl
    | none => exact ih

theorem handleFile_eq_fallback (fs : FSModel) (fuel : Nat) :
    ∀ (segs base : List String),
      handleFile fs fuel base segs =
        listFirstSome ((fallbackCandidates base segs).map (statServe fs fuel)) := by
  intro segs
  induction segs with
  | nil =>
    intro base
    show statServe fs fuel base = listFirstSome [statServe fs fuel base]
    cases statServe fs fuel base with
    | some p => rfl
    | none => rfl
  | cons a rest ih =>
    intro base
    show (match handleFile fs fuel (base ++ [a]) rest with
          | some served => some served
          | none => statServe fs fuel base) = _
    rw [ih (base ++ [a])]
    rw [show fallbackCandidates base (a :: rest) =
        fallbackCandidates (base ++ [a]) rest ++ [base] from rfl]
    rw [List.map_append, listFirstSome_append]
    cases listFirstSome
        ((fallbackCandidates (base ++ [a]) rest).map (statServe fs fuel)) with
    | some p => rfl
    | none =>
      show statServe fs fuel base = listFirstSome [statServe fs fuel base]
      cases statServe fs fuel base with
      | some p => rfl
      | none => rfl

end StaticLemmas

section Claims

/-- C1: the claim says a handler result that is not already a Response is
wrapped as the `data` field of a default JSON envelope and written.  The
code refutes this: `resp := InitJsonResponse()` inside the if block of
handleRequest (src/http.go lines 97-100) declares a new variable shadowing
the outer nil `resp`, so the envelope is discarded, `resp.Write(w)` panics
on the nil interface (the deferred recover logs it), and nothing is
written - `dispatchWrite` yields `none` at the concrete non-Response
result below, while the envelope the claim describes exists only as the
discarded shadowed value (with `data`, `session` true and empty `errors`
as shown). -/
theorem dispatchWrite_nonResponse_writes_nothing :
    dispatchWrite (GoValue.raw (JsonV.str "ok")) = none
    ∧ gfind (InitJsonResponse.set "data" (JsonV.str "ok")).data "data" =
        some (JsonV.str "ok")
    ∧ gfind (InitJsonResponse.set "data" (JsonV.str "ok")).data "session" =
        some (JsonV.bool true)
    ∧ gfind (InitJsonResponse.set "data" (JsonV.str "ok")).data "errors" =
        some (JsonV.arr []) :=
  ⟨rfl, rfl, rfl, rfl⟩

/-- C2: dumping a well-formed store and restoring the resulting document
into an empty store yields, for every id, exactly the original session:
same `id`, `user` and `data`, and `lastOp` equal up to the serialized
RFC3339Nano precision (the monotonic clock reading is not serialized). -/
theorem sessionDump_restore_roundtrip (path : String)
    (st : List (String × SessionV)) (hpath : path ≠ "") (hwf : WfStore st) :
    ∀ k, optSessionRTEq
      (gfind (RestoreSessions path (FileRead.ok (SessionDump st)) []).2 k)
      (gfind st k) := by
  intro k
  have hnd : ((SessionDump st).map (fun p => p.2.id)).Nodup := by
    rw [sessionDump_ids st hwf.2]
    exact hwf.1
  simp only [RestoreSessions, if_neg hpath]
  rw [restoreFold_gfind _ _ _ hnd]
  rw [findByEntryId_sessionDump st k hwf.2]
  cases hg : gfind st k with
  | none => exact trivial
  | some s => exact ⟨rfl, rfl, rfl, rfl⟩

/-- Witness for C2 at a concrete one-session store. -/
theorem sessionDump_restore_roundtrip_witness :
    optSessionRTEq
      (gfind (RestoreSessions "sessions.json"
        (FileRead.ok (SessionDump stC2)) []).2 "a")
      (gfind stC2 "a") :=
  sessionDump_restore_roundtrip "sessions.json" stC2 (by decide)
    ⟨by decide, by decide⟩ "a"

/-- C3: once the handler is resolved and the session started, the
dispatcher answers 307 Temporary Redirect to /Login - with the session
cookie set on that same response - and never invokes the handler, exactly
when the session is newly created and the requested handler name is not
Login, or the resolved path is auth-gated and the session user is the
empty string. -/
theorem redirect_policy_iff (meth : Method) (request : String)
    (hasAuth : Bool) (s : SessionV) (isNew : Bool) :
    (handleRequest (some meth) request hasAuth (some (s, isNew)) =
        DispatchOutcome.redirect "/Login" 307 true
      ∧ ∀ a w c, handleRequest (some meth) request hasAuth (some (s, isNew)) ≠
        DispatchOutcome.handlerRun a w c)
    ↔ ((isNew = true ∧ request ≠ "Login")
        ∨ (hasAuth = true ∧ s.userName = "")) := by
  constructor
  · rintro ⟨hred, _⟩
    by_contra hno
    rw [not_or] at hno
    obtain ⟨h1, h2⟩ := hno
    simp only [handleRequest] at hred
    rw [if_neg h1, if_neg h2] at hred
    by_cases h3 : meth.numIn = 1 ∨ meth.numIn = 2
    · rw [if_pos h3] at hred
      cases hres : meth.result with
      | error e =>
        rw [hres] at hred
        exact DispatchOutcome.noConfusion hred
      | ok v =>
        rw [hres] at hred
        exact DispatchOutcome.noConfusion hred
    · rw [if_neg h3] at hred
      exact DispatchOutcome.noConfusion hred
  · intro h
    have hred : handleRequest (some meth) request hasAuth (some (s, isNew)) =
        DispatchOutcome.redirect "/Login" 307 true := by
      rcases h with h1 | h2
      · simp only [handleRequest]
        rw [if_pos h1]
      · by_cases h1 : isNew = true ∧ request ≠ "Login"
        · simp only [handleRequest]
          rw [if_pos h1]
        · simp only [handleRequest]
          rw [if_neg h1, if_pos h2]
    refine ⟨hred, ?_⟩
    intro a w c hC
    rw [hred] at hC
    exact DispatchOutcome.noConfusion hC

/-- C4: a non-empty candidate id absent from the store makes the
resolution-or-create operation create and store a session under exactly
that id, with empty user and empty data, reported as not new
(isNew = false). -/
theorem resolveOrCreate_absent_id (id fresh : String) (now : GoTime)
    (st : List (String × SessionV)) (hid : id ≠ "")
    (habs : gfind st id = none) :
    startSession (some id) fresh now st =
      ({ id := id, userName := "", lastOp := now, data := [] }, false,
        gInsert st id { id := id, userName := "", lastOp := now, data := [] })
    ∧ gfind (startSession (some id) fresh now st).2.2 id =
        some { id := id, userName := "", lastOp := now, data := [] } := by
  have hs : newSession id fresh now st =
      ({ id := id, userName := "", lastOp := now, data := [] },
        gInsert st id { id := id, userName := "", lastOp := now, data := [] }) := by
    simp [newSession, hid, habs]
  constructor
  · simp [startSession, hs]
  · simp [startSession, hs, gfind_gInsert_self]

/-- Witness for C4: a fresh client-presented id on the empty store. -/
theorem resolveOrCreate_absent_id_witness :
    gfind (startSession (some "c") "f" tZero []).2.2 "c" =
      some { id := "c", userName := "", lastOp := tZero, data := [] } :=
  (resolveOrCreate_absent_id "c" "f" tZero [] (by decide) rfl).2

/-- C5: in the resolution loop, the auth-gated sub-controller under the
popped name is looked up first and descended into with requiresAuth set to
true for the remainder of the resolution (true is absorbing); the plain
sub-controller is consulted only when no auth-gated one exists under that
name. -/
theorem auth_precedence (ctrl : Controller) (name : String)
    (rest : List String) (b : Bool) (hrest : rest ≠ []) :
    (resolveLoop (some ctrl) (name :: rest) b =
      match gfind ctrl.auth name with
      | some ca => resolveLoop (some ca) rest true
      | none => resolveLoop (gfind ctrl.plain name) rest b)
    ∧ (∀ c stack, (resolveLoop c stack true).2.2 = true) := by
  constructor
  · cases rest with
    | nil => exact absurd rfl hrest
    | cons r rs => rfl
  · intro c stack
    induction stack generalizing c with
    | nil => cases c <;> rfl
    | cons a tail ih =>
      cases c with
      | none => rfl
      | some ctrl2 =>
        cases tail with
        | nil => rfl
        | cons t ts =>
          show (match gfind ctrl2.auth a with
                | some ca => resolveLoop (some ca) (t :: ts) true
                | none => resolveLoop (gfind ctrl2.plain a) (t :: ts) true).2.2 = true
          cases gfind ctrl2.auth a with
          | some ca => exact ih (some ca)
          | none => exact ih (gfind ctrl2.plain a)

/-- Witness for C5: a name with both an auth-gated and a plain
sub-controller descends into the auth-gated one with requiresAuth true. -/
theorem auth_precedence_witness :
    resolveLoop (some ctrlC5) ("Account" :: ["Ping"]) false =
      resolveLoop (some caC5) ["Ping"] true := by
  have h := (auth_precedence ctrlC5 "Account" ["Ping"] false (by decide)).1
  exact h.trans (by rfl)

/-- C6: a resolved handler whose parameter count is neither 1 nor 2 makes
the dispatcher (past the session and redirect checks) answer HTTP 500,
never 404, and never invoke the handler. -/
theorem arity_config_error (meth : Method) (request : String)
    (hasAuth : Bool) (s : SessionV) (isNew : Bool)
    (h1 : ¬(isNew = true ∧ request ≠ "Login"))
    (h2 : ¬(hasAuth = true ∧ s.userName = ""))
    (h3 : meth.numIn ≠ 1) (h4 : meth.numIn ≠ 2) :
    handleRequest (some meth) request hasAuth (some (s, isNew)) =
      DispatchOutcome.serverError
    ∧ handleRequest (some meth) request hasAuth (some (s, isNew)) ≠
        DispatchOutcome.notFound
    ∧ ∀ a w c, handleRequest (some meth) request hasAuth (some (s, isNew)) ≠
        DispatchOutcome.handlerRun a w c := by
  have hm : ¬(meth.numIn = 1 ∨ meth.numIn = 2) := by
    rintro (h | h)
    · exact h3 h
    · exact h4 h
  have he : handleRequest (some meth) request hasAuth (some (s, isNew)) =
      DispatchOutcome.serverError := by
    simp only [handleRequest]
    rw [if_neg h1, if_neg h2, if_neg hm]
  refine ⟨he, ?_, ?_⟩
  · rw [he]
    exact fun hc => DispatchOutcome.noConfusion hc
  · intro a w c
    rw [he]
    exact fun hc => DispatchOutcome.noConfusion hc

/-- Witness for C6: a zero-parameter handler on a quiet request gives the
server error, not a 404. -/
theorem arity_config_error_witness :
    handleRequest (some methC6) "Login" false (some (sC6, false)) =
      DispatchOutcome.serverError
    ∧ handleRequest (some methC6) "Login" false (some (sC6, false)) ≠
        DispatchOutcome.notFound :=
  ⟨(arity_config_error methC6 "Login" false sC6 false (by simp) (by simp)
      (by decide) (by decide)).1,
    (arity_config_error methC6 "Login" false sC6 false (by simp) (by simp)
      (by decide) (by decide)).2.1⟩

/-- C7 counterexample: with a non-empty path and a whole-document decode
failure, `RestoreSessions` returns success (nil error) - the failure is
not reported to the caller as the claim states. -/
theorem restore_decode_failure_counterexample :
    RestoreSessions "sessions.json" FileRead.decodeErr [] = (true, []) := rfl

/-- C7 amended: restore with an empty path is a no-op success leaving the
store unchanged; with a non-empty path an open failure is reported to the
caller with the store unchanged, but a hard decode failure of the whole
document is silently ignored - restore returns success - and the store
stays as it was (empty at startup); the server starts either way. -/
theorem restore_error_reporting (path : String) (fr : FileRead)
    (st : List (String × SessionV)) (hp : path ≠ "") :
    RestoreSessions "" fr st = (true, st)
    ∧ RestoreSessions path FileRead.decodeErr st = (true, st)
    ∧ RestoreSessions path FileRead.openErr st = (false, st) := by
  refine ⟨rfl, ?_, ?_⟩
  · simp [RestoreSessions, hp]
  · simp [RestoreSessions, hp]

/-- Witness for C7 amended: open failure on the empty startup store. -/
theorem restore_error_reporting_witness :
    RestoreSessions "sessions.json" FileRead.openErr [] = (false, []) :=
  (restore_error_reporting "sessions.json" FileRead.decodeErr [] (by decide)).2.2

/-- C8 counterexample: the startup restore, which is not the
resolution-or-create operation, inserts an entry into the empty store -
entries do not enter the store only via resolution-or-create. -/
theorem restore_inserts_counterexample :
    isCreateOp (StoreOp.restore "f" (FileRead.ok
      [("x", { id := "x", data := [], lastOp := (0, 0), userName := "" })])) = false
    ∧ keysOf (applyOp (StoreOp.restore "f" (FileRead.ok
        [("x", { id := "x", data := [], lastOp := (0, 0), userName := "" })])) []) =
      ["x"] :=
  ⟨rfl, rfl⟩

/-- C8 amended: in every reachable store state no two entries share an id
and every entry is keyed by its own session id; keys enter the store only
via the resolution-or-create operation or the startup restore, and leave
it only via explicit deletion. -/
theorem store_invariants_amended :
    (∀ st, Reachable st → WfStore st)
    ∧ (∀ op st x, isCreateOp op = false → isRestoreOp op = false →
        x ∈ keysOf (applyOp op st) → x ∈ keysOf st)
    ∧ (∀ op st x, isDeleteOp op = false →
        x ∈ keysOf st → x ∈ keysOf (applyOp op st)) :=
  ⟨reachable_wf,
    fun op st x hc hr hx => keys_applyOp_sub op st x hc hr hx,
    fun op st x hd hx => keys_applyOp_sup op st x hd hx⟩

/-- Witness for C8 amended: the store reached by one create operation is
well-formed. -/
theorem store_invariants_witness :
    WfStore (applyOp (StoreOp.create "alice" "fresh" tZero) []) :=
  store_invariants_amended.1 _
    (Reachable.step [] (StoreOp.create "alice" "fresh" tZero) Reachable.init)

/-- C9: a non-empty candidate id already present in the store resolves to
the existing session with isNew = false, leaving id, user and data
unchanged, refreshing only lastOp, and leaving every other store entry
untouched. -/
theorem resolveOrCreate_present_id (id fresh : String) (now : GoTime)
    (st : List (String × SessionV)) (s0 : SessionV) (hid : id ≠ "")
    (hpres : gfind st id = some s0) :
    (startSession (some id) fresh now st).2.1 = false
    ∧ (startSession (some id) fresh now st).1.id = s0.id
    ∧ (startSession (some id) fresh now st).1.userName = s0.userName
    ∧ (startSession (some id) fresh now st).1.data = s0.data
    ∧ (startSession (some id) fresh now st).1.lastOp = now
    ∧ gfind (startSession (some id) fresh now st).2.2 id =
        some { s0 with lastOp := now }
    ∧ ∀ k, k ≠ id → gfind (startSession (some id) fresh now st).2.2 k =
        gfind st k := by
  have hs : newSession id fresh now st =
      ({ s0 with lastOp := now }, gInsert st id { s0 with lastOp := now }) := by
    simp [newSession, hid, hpres]
  refine ⟨?_, ?_, ?_, ?_, ?_, ?_, ?_⟩
  · simp [startSession, hs]
  · simp [startSession, hs]
  · simp [startSession, hs]
  · simp [startSession, hs]
  · simp [startSession, hs]
  · simp only [startSession, hs]
    exact gfind_gInsert_self st id { s0 with lastOp := now }
  · intro k hk
    simp only [startSession, hs]
    exact gfind_gInsert_ne st id k { s0 with lastOp := now } (Ne.symm hk)

/-- Witness for C9: resolving an existing session refreshes only its
timestamp and reports isNew = false. -/
theorem resolveOrCreate_present_id_witness :
    gfind (startSession (some "a") "f" tZero stC9).2.2 "a" =
      some { s0C9 with lastOp := tZero } :=
  (resolveOrCreate_present_id "a" "f" tZero stC9 s0C9 (by decide) rfl).2.2.2.2.2.1

/-- C10: the static fallback serves from the static root using the reset
original path stack, trying the deepest nested path first and falling back
prefix by prefix toward the root (the candidate order of
`fallbackCandidates`); a candidate that is a directory serves its
`index.html` when that file exists; when no candidate serves, the outcome
is not-found. -/
theorem static_fallback_order (fs : FSModel) (fuel : Nat)
    (dist : List String) (u : URIModel) :
    (handleDist fs fuel dist u =
      match listFirstSome
          ((fallbackCandidates dist u.orig).map (statServe fs fuel)) with
      | some p => DistOutcome.served p
      | none => DistOutcome.notFound)
    ∧ (∀ p, gfind fs p = some FNode.dir →
        gfind fs (p ++ ["index.html"]) = some FNode.file →
        1 ≤ fuel → statServe fs fuel p = some (p ++ ["index.html"])) := by
  constructor
  · unfold handleDist
    rw [show (ResetStack u).stack = u.orig from rfl]
    rw [handleFile_eq_fallback fs fuel u.orig dist]
  · intro p hdir hidx hfuel
    cases fuel with
    | zero => exact absurd hfuel (by decide)
    | succ n => simp [statServe, hdir, serveNoStack, hidx]

/-- Witness for C10: under the sample filesystem, the `assets` directory
with an `index.html` serves that file. -/
theorem static_fallback_order_witness :
    statServe fsC10 1 ["dist", "assets"] = some ["dist", "assets", "index.html"] :=
  (static_fallback_order fsC10 1 ["dist"] uC10).2 ["dist", "assets"]
    (by decide) (by decide) (by decide)

end Claims
